import Mathlib

/-!
Verification of core fuel-core subsystems against their specification:
the coins-to-spend index key layout (`graphql_api/storage/coins.rs`),
the balance read path (`service/adapters/graphql_api/off_chain.rs`),
the gas-price controller (`services/gas_price_service/src/v1/service.rs`),
the DA cost source (`v1/da_source_service/service.rs`),
and the PoA block-production task (`consensus_module/poa/src/service.rs`).

Bytes are modelled as natural numbers, byte strings as `List Nat`,
machine integers as `Nat` with explicit bounds where overflow matters.
-/

namespace FuelCore

/-- Big-endian byte encoding of `n` into `k` bytes, most significant first.
Mirrors Rust's `u64::to_be_bytes` / `u16::to_be_bytes` (which truncate to the
width): byte `i` is `n / 256^(k-1-i) % 256`. -/
def natToBeBytes : Nat → Nat → List Nat
  | 0, _ => []
  | k + 1, n => (n / 256 ^ k) % 256 :: natToBeBytes k (n % 256 ^ k)

/-- Big-endian byte decoding, mirrors `u64::from_be_bytes` / `u16::from_be_bytes`. -/
def beBytesToNat (l : List Nat) : Nat :=
  l.foldl (fun acc b => acc * 256 + b) 0

/-- Strict lexicographic comparison of byte strings, as Rust's derived
`Ord`/`PartialOrd` on `[u8; N]` compares equal-length byte arrays. -/
def lexLtB : List Nat → List Nat → Bool
  | [], [] => false
  | [], _ :: _ => true
  | _ :: _, [] => false
  | a :: as, b :: bs =>
    if a < b then true
    else if a = b then lexLtB as bs
    else false

/-! ## Coins-to-spend index (`graphql_api/storage/coins.rs`)

Field widths: `Address::LEN = AssetId::LEN = TxId::LEN = Nonce::LEN = 32`.
`CoinsToSpendIndexKey::LEN = 32 + 32 + 1 + 8 + 32 + 2 = 107`. -/

/-- `NON_RETRYABLE_BYTE` is declared in `graphql_api/indexation/coins_to_spend`,
whose file is not part of this source snapshot. Its value `[0x01]` is pinned by
the in-repo tests `key_from_coin` and `key_from_non_retryable_message` in
`coins.rs`, which assert the full key byte vector with `0x01` at offset 64. -/
def NON_RETRYABLE_BYTE : List Nat := [0x01]

/-- `RETRYABLE_BYTE` is declared in `graphql_api/indexation/coins_to_spend`,
whose file is not part of this source snapshot. Its value `[0x00]` is pinned by
the in-repo test `key_from_retryable_message` in `coins.rs`, which asserts the
full key byte vector with `0x00` at offset 64 and also asserts
`key.retryable_flag() == RETRYABLE_BYTE[0]`. -/
def RETRYABLE_BYTE : List Nat := [0x00]

/-- `MESSAGE_PADDING_BYTES` is declared in `graphql_api/indexation/coins_to_spend`,
not part of this source snapshot; the value `[0xFF, 0xFF]` is pinned by the
in-repo message-key tests (trailing bytes of the asserted key vectors). -/
def MESSAGE_PADDING_BYTES : List Nat := [0xFF, 0xFF]

/-- `Coin` (`fuel_core_types::entities::coins::coin::Coin`), with the `UtxoId`
split into its `tx_id` and `output_index` parts. `txPointer` is carried but
never read by the index-key code. -/
structure Coin where
  owner : List Nat
  assetId : List Nat
  amount : Nat
  txId : List Nat
  outputIndex : Nat
  txPointer : Nat
deriving DecidableEq

/-- The observable part of `Message` that `from_message` reads: `recipient()`,
`amount()`, `nonce()` and the `has_retryable_amount()` flag (whose derivation
lives in `fuel-core-types`, outside this snapshot, and is treated as an
opaque observable here). -/
structure Message where
  recipient : List Nat
  amount : Nat
  nonce : List Nat
  hasRetryableAmount : Bool
deriving DecidableEq

/-- `utxo_id_to_bytes` (`fuel_core_storage::codec::primitive`): `tx_id` bytes
followed by the big-endian 2-byte `output_index`, as fixed by the `OwnedCoins`
key layout `owner(32) ++ tx_id(32) ++ output_index_be(2)`. -/
def utxoIdToBytes (txId : List Nat) (outputIndex : Nat) : List Nat :=
  txId ++ natToBeBytes 2 outputIndex

/-- `CoinsToSpendIndexKey::from_coin`: `owner ++ asset_id ++ NON_RETRYABLE_BYTE
++ amount.to_be_bytes() ++ utxo_id_to_bytes(utxo_id)`. -/
def CoinsToSpendIndexKey.from_coin (coin : Coin) : List Nat :=
  coin.owner ++ coin.assetId ++ NON_RETRYABLE_BYTE ++ natToBeBytes 8 coin.amount
    ++ utxoIdToBytes coin.txId coin.outputIndex

/-- `CoinsToSpendIndexKey::from_message`: `recipient ++ base_asset_id ++
(RETRYABLE_BYTE or NON_RETRYABLE_BYTE) ++ amount.to_be_bytes() ++ nonce ++
MESSAGE_PADDING_BYTES`. -/
def CoinsToSpendIndexKey.from_message (message : Message) (baseAssetId : List Nat) :
    List Nat :=
  message.recipient ++ baseAssetId
    ++ (if message.hasRetryableAmount then RETRYABLE_BYTE else NON_RETRYABLE_BYTE)
    ++ natToBeBytes 8 message.amount ++ message.nonce ++ MESSAGE_PADDING_BYTES

/-- `CoinsToSpendIndexKey::owner`: bytes `[0 .. 32)` of the key. -/
def CoinsToSpendIndexKey.owner (key : List Nat) : List Nat :=
  (key.drop 0).take 32

/-- `CoinsToSpendIndexKey::asset_id`: bytes `[32 .. 64)` of the key. -/
def CoinsToSpendIndexKey.asset_id (key : List Nat) : List Nat :=
  (key.drop 32).take 32

/-- `CoinsToSpendIndexKey::retryable_flag`: the byte at offset `64`. -/
def CoinsToSpendIndexKey.retryable_flag (key : List Nat) : Nat :=
  key.getD 64 0

/-- `CoinsToSpendIndexKey::amount`: `u64::from_be_bytes` of bytes `[65 .. 73)`. -/
def CoinsToSpendIndexKey.amount (key : List Nat) : Nat :=
  beBytesToNat ((key.drop 65).take 8)

/-- `CoinsToSpendIndexKey::foreign_key_bytes`: bytes `[73 .. 107)`. -/
def CoinsToSpendIndexKey.foreign_key_bytes (key : List Nat) : List Nat :=
  key.drop 73

/-- `CoinsToSpendIndexKey::utxo_id`, transcribed with its bug intact: the
source computes `offset = Address::LEN + AssetId::LEN + ItemAmount::BITS / 8
= 72`, omitting the 1-byte retryable flag, takes `tx_id` from `[72 .. 104)`
and the output index from `[104 ..]`. The two `try_into().expect(...)` calls
panic on a slice of the wrong length; a panic is modelled as `none`. On a
well-formed 107-byte key the output-index slice `[104 ..]` has length 3, so
the second conversion always panics. -/
def CoinsToSpendIndexKey.utxo_id (key : List Nat) : Option (List Nat × Nat) :=
  let txid := (key.drop 72).take 32
  let outputIndexBytes := key.drop (72 + 32)
  if txid.length = 32 then
    if outputIndexBytes.length = 2 then
      some (txid, beBytesToNat outputIndexBytes)
    else none
  else none

/-- Modelled from the spec: the intended `utxo_id` accessor. The spec fixes the
foreign key for coins as `tx_id:32 || output_index:2` located after the
`owner/asset/flag/amount` prefix, i.e. at offsets `[73 .. 105)` and
`[105 .. 107)`; the source's accessor (see `CoinsToSpendIndexKey.utxo_id`)
computes the slices from offset 72 instead and is flagged by the spec as a bug. -/
def CoinsToSpendIndexKey.utxo_id_spec (key : List Nat) : Option (List Nat × Nat) :=
  let txid := (key.drop 73).take 32
  let outputIndexBytes := (key.drop 105).take 2
  if txid.length = 32 ∧ outputIndexBytes.length = 2 then
    some (txid, beBytesToNat outputIndexBytes)
  else none

/-- Well-formedness of a `Coin` value: field widths of the Rust types
(`Address`/`AssetId`/`TxId` are 32 bytes, `amount : u64`, `output_index : u16`). -/
def Coin.WF (c : Coin) : Prop :=
  c.owner.length = 32 ∧ c.assetId.length = 32 ∧ c.txId.length = 32 ∧
    c.amount < 2 ^ 64 ∧ c.outputIndex < 2 ^ 16

/-! ## Balance read path (`service/adapters/graphql_api/off_chain.rs`) -/

/-- Errors surfaced by the off-chain read path. -/
inductive GqlError where
  | balanceOverflow
deriving DecidableEq

/-- The off-chain database view read by `balance` and `coins_to_spend`:
`CoinBalances: (owner, asset) → u64`, `MessageBalances: owner → u64`
(values absent for unindexed keys), and the `CoinsToSpendIndex` whose keys
are iterated in stored order. -/
structure OffChainDB where
  coinBalances : List Nat → List Nat → Option Nat
  messageBalances : List Nat → Option Nat
  coinsToSpendIndex : List (List Nat)

/-- Well-formedness of the database: both balance tables store `u64` values. -/
def OffChainDB.WF (db : OffChainDB) : Prop :=
  (∀ o a v, db.coinBalances o a = some v → v < 2 ^ 64) ∧
    (∀ o v, db.messageBalances o = some v → v < 2 ^ 64)

/-- `u128::checked_add` on the widened accumulators. -/
def checkedAdd128 (a b : Nat) : Option Nat :=
  if a + b < 2 ^ 128 then some (a + b) else none

/-- `OffChainDatabase::balance`: read `CoinBalances[(owner, asset)]`
(default 0, widened to u128); when `base_asset_id == asset_id` also read
`MessageBalances[owner]` (default 0, widened) and `checked_add` them,
erroring on overflow of the 128-bit sum; otherwise return the coin
balance alone. -/
def OffChainDB.balance (db : OffChainDB) (owner assetId baseAssetId : List Nat) :
    Except GqlError Nat :=
  let coins := (db.coinBalances owner assetId).getD 0
  if baseAssetId = assetId then
    let messages := (db.messageBalances owner).getD 0
    match checkedAdd128 coins messages with
    | some total => .ok total
    | none => .error .balanceOverflow
  else
    .ok coins

/-- The collection loop of `coins_to_spend`: push `key.utxo_id()` for each
iterated key; a panic inside `utxo_id()` aborts the whole call (`none`). -/
def collectUtxoIds : List (List Nat) → Option (List (List Nat × Nat))
  | [] => some []
  | key :: rest =>
    match CoinsToSpendIndexKey.utxo_id key, collectUtxoIds rest with
    | some u, some l => some (u :: l)
    | _, _ => none

/-- `OffChainDatabase::coins_to_spend`: build the 64-byte prefix
`owner ++ asset_id`, iterate every `CoinsToSpendIndex` key starting with
that prefix, and push `key.utxo_id()` for each; the `max` argument is
never read. `utxo_id()` can panic (see `CoinsToSpendIndexKey.utxo_id`);
a panic anywhere in the loop is modelled as `none`. -/
def OffChainDB.coins_to_spend (db : OffChainDB) (owner assetId : List Nat)
    (max : Nat) : Option (List (List Nat × Nat)) :=
  let keyPrefix := owner ++ assetId
  let matching := db.coinsToSpendIndex.filter
    (fun key => key.take keyPrefix.length = keyPrefix)
  collectUtxoIds matching

/-! ## DA cost source (`v1/da_source_service/service.rs`) -/

/-- `DaBlockCosts`: a cost bundle covering the inclusive L2 height range
`[l2BlocksStart ..= l2BlocksEnd]`. -/
structure DaBlockCosts where
  bundleId : Nat
  l2BlocksStart : Nat
  l2BlocksEnd : Nat
  bundleSizeBytes : Nat
  blobCostWei : Nat
deriving DecidableEq

/-- `filter_costs_that_have_values_greater_than_l2_block_height`: keep
exactly the bundles with `l2_blocks.end() < latest_l2_height`. -/
def filterCosts (latestL2Height : Nat) (daBlockCosts : List DaBlockCosts) :
    List DaBlockCosts :=
  daBlockCosts.filter (fun c => c.l2BlocksEnd < latestL2Height)

/-- One iteration of the send loop in `process_block_costs`: append the bundle
to the sent list and advance `recorded_height` to its range end when larger
(or set it when previously unset). -/
def sendStep (acc : List DaBlockCosts × Option Nat) (c : DaBlockCosts) :
    List DaBlockCosts × Option Nat :=
  (acc.1 ++ [c],
    match acc.2 with
    | some r => if c.l2BlocksEnd > r then some c.l2BlocksEnd else some r
    | none => some c.l2BlocksEnd)

/-- `DaSourceService::process_block_costs` on a successfully polled batch:
filter the batch against `latest_l2_height`, send every surviving bundle to
the broadcast channel in order, and advance `recorded_height` per bundle.
Returns the sent bundles and the new `recorded_height`. -/
def processBlockCosts (batch : List DaBlockCosts) (latestL2Height : Nat)
    (recordedHeight : Option Nat) : List DaBlockCosts × Option Nat :=
  (filterCosts latestL2Height batch).foldl sendStep ([], recordedHeight)

/-! ## Gas-price controller (`v1/service.rs`) -/

/-- The state touched by `GasPriceServiceV1::handle_normal_block`: the
algorithm updater's last-processed L2 height, the `UnrecordedBlocks` table,
the persisted `RecordedHeight` and `UpdaterMetadata` height, and the DA cost
buffer. Storage mutations are modelled directly on the committed state, since
`handle_normal_block` commits its single transaction before returning `Ok`. -/
structure GasPriceState where
  algoL2Height : Nat
  unrecordedBlocks : List (Nat × Nat)
  recordedHeight : Option Nat
  metadataHeight : Option Nat
  daBlockCostsBuffer : List DaBlockCosts
deriving DecidableEq

/-- Errors of the gas-price update path. -/
inductive GasPriceError where
  | zeroCapacity
deriving DecidableEq

/-- Modelled from the spec: `AlgorithmUpdaterV1::update_da_record_data` (the
algorithm crate is not part of this source snapshot). Per the spec it applies
one DA bundle to the updater state, consuming the unrecorded blocks covered by
the bundle's inclusive height range. -/
def updateDaRecordData (bundle : DaBlockCosts) (unrecorded : List (Nat × Nat)) :
    List (Nat × Nat) :=
  unrecorded.filter
    (fun hb => ¬ (bundle.l2BlocksStart ≤ hb.1 ∧ hb.1 ≤ bundle.l2BlocksEnd))

/-- Modelled from the spec: `AlgorithmUpdaterV1::update_l2_block_data` (the
algorithm crate is not part of this source snapshot). Per the spec it ingests
one L2 block's telemetry: the updater's last-processed height becomes the
tick's height and the block's byte size joins the unrecorded blocks. -/
def updateL2BlockData (height blockBytes : Nat) (s : GasPriceState) :
    GasPriceState :=
  { s with algoL2Height := height,
           unrecordedBlocks := s.unrecordedBlocks ++ [(height, blockBytes)] }

/-- The DA-buffer drain loop of `handle_normal_block`: apply each buffered
bundle in buffer order and set `latest_recorded_height` to that bundle's
`l2_blocks.end()` (so the final value is the last bundle's end). -/
def drainBuffer (buffer : List DaBlockCosts)
    (acc : List (Nat × Nat) × Option Nat) : List (Nat × Nat) × Option Nat :=
  buffer.foldl
    (fun acc bundle => (updateDaRecordData bundle acc.1, some bundle.l2BlocksEnd))
    acc

/-- `GasPriceServiceV1::handle_normal_block`: validate the capacity, drain the
DA cost buffer (advancing `latest_recorded_height` to each bundle's range
end), persist `RecordedHeight` when any value was obtained, ingest the L2
block, persist the updater metadata, commit, and clear the buffer. -/
def handleNormalBlock (s : GasPriceState)
    (height gasUsed blockGasCapacity blockBytes blockFees : Nat) :
    Except GasPriceError GasPriceState :=
  if blockGasCapacity = 0 then
    .error .zeroCapacity
  else
    let drained := drainBuffer s.daBlockCostsBuffer
      (s.unrecordedBlocks, s.recordedHeight)
    let s1 := { s with unrecordedBlocks := drained.1,
                       recordedHeight :=
                         match drained.2 with
                         | some h => some h
                         | none => s.recordedHeight }
    let s2 := updateL2BlockData height blockBytes s1
    let s3 := { s2 with metadataHeight := some s2.algoL2Height }
    .ok { s3 with daBlockCostsBuffer := [] }

/-! ## PoA block-production task (`consensus_module/poa/src/service.rs`) -/

/-- `Trigger` (`poa::config`): block-production policy. -/
inductive Trigger where
  | never
  | instant
  | interval (blockTime : Nat)
deriving DecidableEq

/-- `RequestType`: what drove this production. -/
inductive RequestType where
  | manual
  | trigger
deriving DecidableEq

/-- `OnConflict` (`poa::deadline_clock`): timer re-arm conflict policy. -/
inductive OnConflict where
  | min
  | overwrite
deriving DecidableEq

/-- Modelled from the spec: `DeadlineClock::set_deadline` (the
`deadline_clock` module is not part of this source snapshot). Per the spec the
clock is a single re-armable timer; `Min` keeps the earlier of the current and
new deadlines, `Overwrite` replaces the current deadline. -/
def setDeadline (timer : Option Nat) (deadline : Nat) :
    OnConflict → Option Nat
  | .min =>
    match timer with
    | some t => some (Nat.min t deadline)
    | none => some deadline
  | .overwrite => some deadline

/-- Errors returned by `produce_block`. -/
inductive PoAError where
  | noConsensusKey
  | nonMonotonicTimestamp
  | blockProduction
  | commitFailed
deriving DecidableEq

/-- The outcome of one `produce_block` call: normal return, error return, or
a panic (`unreachable!` for trigger-driven production in `Never` mode). -/
inductive ProduceOutcome where
  | ok
  | err (e : PoAError)
  | panic
deriving DecidableEq

/-- The part of `ExecutionResult` that `produce_block` consumes: an opaque
block identifier (signed over) and the skipped transactions. -/
structure ExecResult where
  blockId : Nat
  skippedTransactions : List (Nat × Nat)
deriving DecidableEq

/-- Inputs from the outside world during one `produce_block` call: the
`Instant::now()` captured at production start, the block producer's outcome,
and the importer's commit outcome. -/
structure ProduceEnv where
  now : Nat
  produceResult : Except PoAError ExecResult
  commitResult : Except PoAError Unit

/-- The `MainTask` state mutated by `produce_block`: the three last-block
fields, the trigger mode, the deadline-clock state, and the accumulated
`remove_txs` calls issued to the pool. -/
structure PoAState where
  signingKey : Option Nat
  lastHeight : Nat
  lastTimestamp : Nat
  lastBlockCreated : Nat
  trigger : Trigger
  timerDeadline : Option Nat
  removedTxs : List (Nat × Nat)
deriving DecidableEq

/-- `seal_block`: sign when the key is present, error otherwise. The signature
content is opaque; it is modelled as the pair of key and block id. -/
def sealBlock (signingKey : Option Nat) (blockId : Nat) :
    Except PoAError (Nat × Nat) :=
  match signingKey with
  | some key => .ok (key, blockId)
  | none => .error .noConsensusKey

/-- `MainTask::produce_block`: check the signing key, check timestamp
monotonicity (`last_timestamp > block_time` is rejected), run the producer,
remove the skipped transactions from the pool, seal, commit through the
importer, then advance `last_height`/`last_timestamp`/`last_block_created`
and re-arm the timer per the trigger/kind matrix. Early error returns leave
the state as it was at that point. -/
def produceBlock (s : PoAState) (height blockTime : Nat)
    (requestType : RequestType) (env : ProduceEnv) :
    PoAState × ProduceOutcome :=
  let lastBlockCreated := env.now
  if s.signingKey = none then
    (s, .err .noConsensusKey)
  else if blockTime < s.lastTimestamp then
    (s, .err .nonMonotonicTimestamp)
  else
    match env.produceResult with
    | .error e => (s, .err e)
    | .ok res =>
      let s1 := { s with removedTxs := s.removedTxs ++ res.skippedTransactions }
      match sealBlock s.signingKey res.blockId with
      | .error e => (s1, .err e)
      | .ok _seal =>
        match env.commitResult with
        | .error e => (s1, .err e)
        | .ok _ =>
          let s2 := { s1 with lastHeight := height,
                              lastTimestamp := blockTime,
                              lastBlockCreated := lastBlockCreated }
          match s2.trigger, requestType with
          | .never, .manual => (s2, .ok)
          | .never, .trigger => (s2, .panic)
          | .instant, _ => (s2, .ok)
          | .interval bt, .trigger =>
            ({ s2 with timerDeadline :=
                setDeadline s2.timerDeadline (lastBlockCreated + bt) .min }, .ok)
          | .interval bt, .manual =>
            ({ s2 with timerDeadline :=
                setDeadline s2.timerDeadline (lastBlockCreated + bt) .overwrite },
              .ok)

/-! ## Helper lemmas: big-endian encoding and lexicographic order -/

theorem natToBeBytes_length (k n : Nat) : (natToBeBytes k n).length = k := by
  induction k generalizing n with
  | zero => rfl
  | succ k ih => simp [natToBeBytes, ih]

theorem lexLtB_self (l : List Nat) : lexLtB l l = false := by
  induction l with
  | nil => rfl
  | cons a l ih => simp [lexLtB, ih]

theorem lexLtB_append_same (p u v : List Nat) :
    lexLtB (p ++ u) (p ++ v) = lexLtB u v := by
  induction p with
  | nil => rfl
  | cons a p ih => simp [lexLtB, ih]

theorem lexLtB_cons_lt {a b : Nat} (h : a < b) (u v : List Nat) :
    lexLtB (a :: u) (b :: v) = true := by
  simp [lexLtB, h]

theorem lexLtB_cons_cons (a b : Nat) (u v : List Nat) :
    lexLtB (a :: u) (b :: v) =
      if a < b then true else if a = b then lexLtB u v else false := rfl

theorem lexLtB_append_eqlen (u : List Nat) :
    ∀ (v x y : List Nat), u.length = v.length →
      (lexLtB (u ++ x) (v ++ y) = true ↔
        lexLtB u v = true ∨ (u = v ∧ lexLtB x y = true)) := by
  induction u with
  | nil =>
    intro v x y h
    cases v with
    | nil => simp [lexLtB]
    | cons b bs => simp at h
  | cons a as ih =>
    intro v x y h
    cases v with
    | nil => simp at h
    | cons b bs =>
      simp only [List.length_cons] at h
      have h' : as.length = bs.length := by omega
      by_cases hab : a < b
      · simp [lexLtB, hab]
      · by_cases heq : a = b
        · subst heq
          simp only [List.cons_append, lexLtB_cons_cons, lt_self_iff_false,
            if_false, eq_self_iff_true, if_true, List.cons.injEq, true_and]
          exact ih bs x y h'
        · simp [lexLtB, hab, heq]

theorem lt_of_div_lt {B m n : Nat} (hB : 0 < B) (h : m / B < n / B) : m < n := by
  have h1 : B * (m / B) + m % B = m := Nat.div_add_mod m B
  have h2 : m % B < B := Nat.mod_lt m hB
  have h3 : B * (m / B) + B ≤ B * (n / B) := by
    have h4 : B * (m / B + 1) ≤ B * (n / B) :=
      Nat.mul_le_mul (Nat.le_refl B) (Nat.succ_le_of_lt h)
    simpa [Nat.mul_succ] using h4
  have h5 : B * (n / B) ≤ n := by
    rw [Nat.mul_comm]
    exact Nat.div_mul_le_self n B
  omega

theorem lt_iff_mod_lt_of_div_eq {B m n : Nat} (hB : 0 < B)
    (h : m / B = n / B) : m < n ↔ m % B < n % B := by
  have h1 : B * (m / B) + m % B = m := Nat.div_add_mod m B
  have h2 : B * (n / B) + n % B = n := Nat.div_add_mod n B
  rw [h] at h1
  have h3 : m % B < B := Nat.mod_lt m hB
  have h4 : n % B < B := Nat.mod_lt n hB
  omega

theorem beBytes_lt (k : Nat) :
    ∀ m n : Nat, m < 256 ^ k → n < 256 ^ k →
      (lexLtB (natToBeBytes k m) (natToBeBytes k n) = true ↔ m < n) := by
  induction k with
  | zero =>
    intro m n hm hn
    simp only [pow_zero, Nat.lt_one_iff] at hm hn
    subst hm; subst hn
    simp [natToBeBytes, lexLtB]
  | succ k ih =>
    intro m n hm hn
    have hB : 0 < 256 ^ k := Nat.pos_pow_of_pos k (by norm_num)
    have hmB : m / 256 ^ k < 256 := by
      rw [Nat.div_lt_iff_lt_mul hB]
      rw [pow_succ] at hm
      omega
    have hnB : n / 256 ^ k < 256 := by
      rw [Nat.div_lt_iff_lt_mul hB]
      rw [pow_succ] at hn
      omega
    simp only [natToBeBytes, Nat.mod_eq_of_lt hmB, Nat.mod_eq_of_lt hnB]
    by_cases hdiv : m / 256 ^ k < n / 256 ^ k
    · simp only [lexLtB, if_pos hdiv, true_iff]
      exact lt_of_div_lt hB hdiv
    · by_cases heq : m / 256 ^ k = n / 256 ^ k
      · simp only [lexLtB, if_neg hdiv, if_pos heq]
        rw [ih (m % 256 ^ k) (n % 256 ^ k) (Nat.mod_lt m hB) (Nat.mod_lt n hB)]
        exact (lt_iff_mod_lt_of_div_eq hB heq).symm
      · have hgt : n / 256 ^ k < m / 256 ^ k := by omega
        have hnm : n < m := lt_of_div_lt hB hgt
        simp only [lexLtB, if_neg hdiv, if_neg heq]
        constructor
        · intro hfalse
          exact Bool.noConfusion hfalse
        · intro hlt
          exact absurd hlt (by omega)

theorem natToBeBytes_inj {k m n : Nat} (hm : m < 256 ^ k) (hn : n < 256 ^ k)
    (h : natToBeBytes k m = natToBeBytes k n) : m = n := by
  have h1 : ¬ m < n := by
    intro hlt
    have := (beBytes_lt k m n hm hn).mpr hlt
    rw [h, lexLtB_self] at this
    exact Bool.noConfusion this
  have h2 : ¬ n < m := by
    intro hlt
    have := (beBytes_lt k n m hn hm).mpr hlt
    rw [h, lexLtB_self] at this
    exact Bool.noConfusion this
  omega

/-! ## Concrete vectors (from the `coins.rs` test module) -/

/-- Owner `0x00 .. 0x1F` of the `key_from_coin` test. -/
def ownerBytes : List Nat := List.range 32

/-- Asset id `0x20 .. 0x3F` of the `key_from_coin` test. -/
def assetBytes : List Nat := (List.range 32).map (· + 0x20)

/-- Tx id `0x50 .. 0x6F` of the `key_from_coin` test. -/
def txIdBytes : List Nat := (List.range 32).map (· + 0x50)

/-- The coin of the `key_from_coin` test: amount `0x4041424344454647`,
output index `0xFEFF`. -/
def goldenCoin : Coin :=
  { owner := ownerBytes
    assetId := assetBytes
    amount := 0x4041424344454647
    txId := txIdBytes
    outputIndex := 0xFEFF
    txPointer := 0 }

/-- The retryable message of the `key_from_retryable_message` test
(`data = vec![1]`, so `has_retryable_amount()` holds). -/
def retryableMsg : Message :=
  { recipient := ownerBytes
    amount := 0x4041424344454647
    nonce := txIdBytes
    hasRetryableAmount := true }

/-! ## C1: index-key decoding and the `utxo_id` accessor -/

/-- C1: on the repository's own `key_from_coin` golden coin, the packed key's
`owner()`, `asset_id()` and `amount()` accessors recover the coin's fields,
but the `utxo_id()` accessor does not: it takes the tx-id slice from offset
72 (the owner/asset/amount widths, omitting the 1-byte retryable flag), and
its output-index slice `[104 ..]` has length 3, so the `[u8; 2]` conversion
panics (modelled as `none`). Reading the foreign-key region at its actual
offset 73, as the spec prescribes, recovers the coin's `UtxoId`. -/
theorem c1_utxo_id_accessor_bug :
    CoinsToSpendIndexKey.owner (CoinsToSpendIndexKey.from_coin goldenCoin)
        = goldenCoin.owner ∧
    CoinsToSpendIndexKey.asset_id (CoinsToSpendIndexKey.from_coin goldenCoin)
        = goldenCoin.assetId ∧
    CoinsToSpendIndexKey.amount (CoinsToSpendIndexKey.from_coin goldenCoin)
        = goldenCoin.amount ∧
    CoinsToSpendIndexKey.retryable_flag (CoinsToSpendIndexKey.from_coin goldenCoin)
        = 0x01 ∧
    CoinsToSpendIndexKey.utxo_id (CoinsToSpendIndexKey.from_coin goldenCoin)
        = none ∧
    CoinsToSpendIndexKey.utxo_id_spec (CoinsToSpendIndexKey.from_coin goldenCoin)
        = some (goldenCoin.txId, goldenCoin.outputIndex) := by
  decide

/-! ## C2: retryable-flag byte -/

/-- C2 counterexample: the claim puts flag byte `0xFF` at offset 64 of a
retryable message's key; on the repository's `key_from_retryable_message`
vector the byte at offset 64 is `0x00`. -/
theorem c2_retryable_flag_counterexample :
    CoinsToSpendIndexKey.retryable_flag
        (CoinsToSpendIndexKey.from_message retryableMsg assetBytes) = 0x00 ∧
    (0x00 : Nat) ≠ 0xFF := by
  decide

/-- C2 (amended): the key built by `from_message` carries flag byte `0x00` at
offset 64 when `has_retryable_amount()` holds and `0x01` otherwise; coins
always get `0x01`; hence for the same owner and asset every retryable key is
lexicographically smaller than every non-retryable key. -/
theorem c2_retryable_flag_amended (m : Message) (baseAsset : List Nat)
    (c : Coin)
    (hm : m.recipient.length = 32) (hb : baseAsset.length = 32)
    (ho : c.owner.length = 32) (ha : c.assetId.length = 32) :
    CoinsToSpendIndexKey.retryable_flag
        (CoinsToSpendIndexKey.from_message m baseAsset)
      = (if m.hasRetryableAmount then 0x00 else 0x01) ∧
    CoinsToSpendIndexKey.retryable_flag (CoinsToSpendIndexKey.from_coin c)
      = 0x01 ∧
    (∀ m2 : Message, m2.recipient = m.recipient →
      m.hasRetryableAmount = true → m2.hasRetryableAmount = false →
      lexLtB (CoinsToSpendIndexKey.from_message m baseAsset)
        (CoinsToSpendIndexKey.from_message m2 baseAsset) = true) := by
  have hflag : ∀ (flag : Nat) (r p q : List Nat),
      p.length = 32 → q.length = 32 →
      CoinsToSpendIndexKey.retryable_flag (p ++ (q ++ (flag :: r))) = flag := by
    intro flag r p q hp hq
    unfold CoinsToSpendIndexKey.retryable_flag
    rw [List.getD_eq_getElem?_getD, List.getElem?_append_right (by omega),
        List.getElem?_append_right (by omega), hp, hq]
    simp
  refine ⟨?_, ?_, ?_⟩
  · cases hr : m.hasRetryableAmount
    · have hkey : CoinsToSpendIndexKey.from_message m baseAsset
          = m.recipient ++ (baseAsset ++ (0x01 :: (natToBeBytes 8 m.amount
              ++ (m.nonce ++ MESSAGE_PADDING_BYTES)))) := by
        simp [CoinsToSpendIndexKey.from_message, hr, NON_RETRYABLE_BYTE,
          List.append_assoc]
      rw [hkey, hflag _ _ _ _ hm hb]
      simp [hr]
    · have hkey : CoinsToSpendIndexKey.from_message m baseAsset
          = m.recipient ++ (baseAsset ++ (0x00 :: (natToBeBytes 8 m.amount
              ++ (m.nonce ++ MESSAGE_PADDING_BYTES)))) := by
        simp [CoinsToSpendIndexKey.from_message, hr, RETRYABLE_BYTE,
          List.append_assoc]
      rw [hkey, hflag _ _ _ _ hm hb]
      simp [hr]
  · have hkey : CoinsToSpendIndexKey.from_coin c
        = c.owner ++ (c.assetId ++ (0x01 :: (natToBeBytes 8 c.amount
            ++ utxoIdToBytes c.txId c.outputIndex))) := by
      simp [CoinsToSpendIndexKey.from_coin, NON_RETRYABLE_BYTE, List.append_assoc]
    rw [hkey, hflag _ _ _ _ ho ha]
  · intro m2 hrec hr1 hr2
    have hk1 : CoinsToSpendIndexKey.from_message m baseAsset
        = m.recipient ++ (baseAsset ++ (0x00 :: (natToBeBytes 8 m.amount
            ++ (m.nonce ++ MESSAGE_PADDING_BYTES)))) := by
      simp [CoinsToSpendIndexKey.from_message, hr1, RETRYABLE_BYTE,
        List.append_assoc]
    have hk2 : CoinsToSpendIndexKey.from_message m2 baseAsset
        = m.recipient ++ (baseAsset ++ (0x01 :: (natToBeBytes 8 m2.amount
            ++ (m2.nonce ++ MESSAGE_PADDING_BYTES)))) := by
      simp [CoinsToSpendIndexKey.from_message, hr2, hrec, NON_RETRYABLE_BYTE,
        List.append_assoc]
    rw [hk1, hk2, lexLtB_append_same, lexLtB_append_same]
    exact lexLtB_cons_lt (by omega) _ _

/-! ## C6: key order versus amount order -/

/-- C6 counterexample: two coins with identical owner, asset and amount but
different output indices; the first key is lexicographically smaller while
the amounts are not numerically smaller, refuting the claimed equivalence. -/
theorem c6_key_order_counterexample :
    lexLtB (CoinsToSpendIndexKey.from_coin goldenCoin)
      (CoinsToSpendIndexKey.from_coin { goldenCoin with outputIndex := 0xFF00 })
      = true ∧
    ¬ goldenCoin.amount < ({ goldenCoin with outputIndex := 0xFF00 } : Coin).amount := by
  decide

/-- C6 (amended): for coins with identical owner and asset (coins are always
non-retryable), byte-wise key order is amount order with the foreign-key
bytes as tiebreaker: `from_coin a < from_coin b` iff `a.amount < b.amount`,
or the amounts are equal and the `UtxoId` bytes of `a` are smaller. -/
theorem c6_key_order_amended (a b : Coin)
    (howner : a.owner = b.owner) (hasset : a.assetId = b.assetId)
    (ha : a.amount < 2 ^ 64) (hb : b.amount < 2 ^ 64) :
    lexLtB (CoinsToSpendIndexKey.from_coin a) (CoinsToSpendIndexKey.from_coin b)
        = true ↔
      (a.amount < b.amount ∨
        (a.amount = b.amount ∧
          lexLtB (utxoIdToBytes a.txId a.outputIndex)
            (utxoIdToBytes b.txId b.outputIndex) = true)) := by
  have h64 : (2 : Nat) ^ 64 = 256 ^ 8 := by norm_num
  rw [h64] at ha hb
  unfold CoinsToSpendIndexKey.from_coin
  rw [howner, hasset]
  simp only [List.append_assoc]
  rw [lexLtB_append_same, lexLtB_append_same, lexLtB_append_same]
  rw [lexLtB_append_eqlen _ _ _ _ (by rw [natToBeBytes_length, natToBeBytes_length])]
  rw [beBytes_lt 8 a.amount b.amount ha hb]
  constructor
  · rintro (h | ⟨heq, hlt⟩)
    · exact Or.inl h
    · exact Or.inr ⟨natToBeBytes_inj ha hb heq, hlt⟩
  · rintro (h | ⟨heq, hlt⟩)
    · exact Or.inl h
    · exact Or.inr ⟨by rw [heq], hlt⟩

/-- The same message with `has_retryable_amount()` false (the
`key_from_non_retryable_message` test vector). -/
def nonRetryableMsg : Message :=
  { retryableMsg with hasRetryableAmount := false }

/-- C2 witness: the amended flag/order statement evaluated on the repository's
own message test vectors. -/
theorem c2_retryable_flag_witness :
    CoinsToSpendIndexKey.retryable_flag
        (CoinsToSpendIndexKey.from_message retryableMsg assetBytes) = 0x00 ∧
    CoinsToSpendIndexKey.retryable_flag
        (CoinsToSpendIndexKey.from_coin goldenCoin) = 0x01 ∧
    lexLtB (CoinsToSpendIndexKey.from_message retryableMsg assetBytes)
        (CoinsToSpendIndexKey.from_message nonRetryableMsg assetBytes) = true := by
  obtain ⟨h1, h2, h3⟩ := c2_retryable_flag_amended retryableMsg assetBytes goldenCoin
    (by decide) (by decide) (by decide) (by decide)
  refine ⟨?_, h2, h3 nonRetryableMsg rfl rfl rfl⟩
  rw [h1]
  rfl

/-- C6 witness: the amended order statement at two concrete coins with
amounts `3 < 5`. -/
theorem c6_key_order_witness :
    lexLtB (CoinsToSpendIndexKey.from_coin { goldenCoin with amount := 3 })
      (CoinsToSpendIndexKey.from_coin { goldenCoin with amount := 5 }) = true :=
  (c6_key_order_amended { goldenCoin with amount := 3 }
      { goldenCoin with amount := 5 } rfl rfl (by norm_num) (by norm_num)).mpr
    (Or.inl (by norm_num))

/-! ## C10: `coins_to_spend` and its `max` argument -/

theorem from_coin_length (c : Coin) (ho : c.owner.length = 32)
    (ha : c.assetId.length = 32) (ht : c.txId.length = 32) :
    (CoinsToSpendIndexKey.from_coin c).length = 107 := by
  simp [CoinsToSpendIndexKey.from_coin, utxoIdToBytes, natToBeBytes_length,
    NON_RETRYABLE_BYTE, ho, ha, ht]

theorem utxo_id_none_of_length (key : List Nat) (h : key.length = 107) :
    CoinsToSpendIndexKey.utxo_id key = none := by
  simp only [CoinsToSpendIndexKey.utxo_id]
  have h1 : ((key.drop 72).take 32).length = 32 := by
    simp [List.length_take, List.length_drop, h]
  have h2 : (key.drop (72 + 32)).length ≠ 2 := by
    simp [List.length_drop, h]
  rw [if_pos h1, if_neg h2]

theorem collectUtxoIds_none {keys : List (List Nat)} {k : List Nat}
    (hk : k ∈ keys) (hnone : CoinsToSpendIndexKey.utxo_id k = none) :
    collectUtxoIds keys = none := by
  induction keys with
  | nil => cases hk
  | cons a rest ih =>
    cases hk with
    | head => simp [collectUtxoIds, hnone]
    | tail _ hmem =>
      have hrest := ih hmem
      cases hcase : CoinsToSpendIndexKey.utxo_id a <;>
        simp [collectUtxoIds, hcase, hrest]

/-- The database of the C10 counterexample: one index entry, built from the
repository's golden coin; no balances. -/
def dbC10 : OffChainDB :=
  { coinBalances := fun _ _ => none
    messageBalances := fun _ => none
    coinsToSpendIndex := [CoinsToSpendIndexKey.from_coin goldenCoin] }

/-- C10 counterexample: the index holds exactly one entry whose key starts
with `owner ++ asset_id`, yet `coins_to_spend` returns no list at all — the
`utxo_id()` call on that entry panics — so the returned list does not contain
every matching entry. -/
theorem c10_counterexample :
    (CoinsToSpendIndexKey.from_coin goldenCoin).take 64
        = ownerBytes ++ assetBytes ∧
    OffChainDB.coins_to_spend dbC10 ownerBytes assetBytes 5 = none := by
  decide

/-- C10 (amended): `coins_to_spend` never reads `max` — the result is
identical for any two values of it — and it attempts every index entry whose
key starts with `owner ++ asset_id`, with no bound on their number; but
because `utxo_id()` panics on every well-formed 107-byte key, the call
succeeds only when no entry matches (returning the empty list); any matching
well-formed coin key makes it panic. -/
theorem c10_coins_to_spend_amended (db : OffChainDB) (owner assetId : List Nat)
    (m1 m2 : Nat) :
    db.coins_to_spend owner assetId m1 = db.coins_to_spend owner assetId m2 ∧
    (db.coinsToSpendIndex.filter
        (fun key => key.take (owner ++ assetId).length = owner ++ assetId) = [] →
      db.coins_to_spend owner assetId m1 = some []) ∧
    (∀ c : Coin, c.WF → c.owner = owner → c.assetId = assetId →
      CoinsToSpendIndexKey.from_coin c ∈ db.coinsToSpendIndex →
      db.coins_to_spend owner assetId m1 = none) := by
  refine ⟨rfl, ?_, ?_⟩
  · intro hempty
    simp only [OffChainDB.coins_to_spend]
    rw [hempty]
    rfl
  · intro c hWF hco hca hmem
    obtain ⟨hol, hal, htl, _, _⟩ := hWF
    have hlen : (CoinsToSpendIndexKey.from_coin c).length = 107 :=
      from_coin_length c hol hal htl
    have hshape : CoinsToSpendIndexKey.from_coin c
        = (owner ++ assetId) ++ (NON_RETRYABLE_BYTE
            ++ (natToBeBytes 8 c.amount ++ utxoIdToBytes c.txId c.outputIndex)) := by
      rw [← hco, ← hca]
      simp [CoinsToSpendIndexKey.from_coin, List.append_assoc]
    have hpfx : (CoinsToSpendIndexKey.from_coin c).take (owner ++ assetId).length
        = owner ++ assetId := by
      rw [hshape, List.take_left]
    have hmemf : CoinsToSpendIndexKey.from_coin c ∈ db.coinsToSpendIndex.filter
        (fun key => key.take (owner ++ assetId).length = owner ++ assetId) := by
      rw [List.mem_filter]
      exact ⟨hmem, by simpa using hpfx⟩
    simp only [OffChainDB.coins_to_spend]
    exact collectUtxoIds_none hmemf (utxo_id_none_of_length _ hlen)

/-- C10 witness: the amended statement evaluated on `dbC10`: the result is
the same for `max = 3` and `max = 7`, and is a panic (`none`) because the
golden coin's key matches the prefix. -/
theorem c10_coins_to_spend_witness :
    OffChainDB.coins_to_spend dbC10 ownerBytes assetBytes 3
        = OffChainDB.coins_to_spend dbC10 ownerBytes assetBytes 7 ∧
    OffChainDB.coins_to_spend dbC10 ownerBytes assetBytes 3 = none := by
  obtain ⟨h1, _, h3⟩ := c10_coins_to_spend_amended dbC10 ownerBytes assetBytes 3 7
  exact ⟨h1, h3 goldenCoin
    ⟨by decide, by decide, by decide, by decide, by decide⟩ rfl rfl (by decide)⟩

/-! ## C3 and C9: the balance read path -/

/-- The database of the C3 scenario: `CoinBalances[(O, base)] = u64::MAX`,
`MessageBalances[O] = 1`. -/
def dbC3 : OffChainDB :=
  { coinBalances := fun o a =>
      if o = ownerBytes ∧ a = assetBytes then some (2 ^ 64 - 1) else none
    messageBalances := fun o => if o = ownerBytes then some 1 else none
    coinsToSpendIndex := [] }

/-- C3 counterexample: with `CoinBalances[(O, base)] = u64::MAX` and
`MessageBalances[O] = 1`, `balance(O, base, base)` returns
`Ok(u64::MAX + 1)`, not a `BalanceOverflow` error: both addends are widened
to `u128` before the `checked_add`, which cannot overflow on two `u64`
values. -/
theorem c3_balance_overflow_counterexample :
    OffChainDB.balance dbC3 ownerBytes assetBytes assetBytes
        = Except.ok (2 ^ 64) ∧
    OffChainDB.balance dbC3 ownerBytes assetBytes assetBytes
        ≠ Except.error GqlError.balanceOverflow := by
  have h : OffChainDB.balance dbC3 ownerBytes assetBytes assetBytes
      = Except.ok (2 ^ 64) := by rfl
  refine ⟨h, ?_⟩
  rw [h]
  intro hcontra
  exact Except.noConfusion hcontra

/-- C3 (amended): for the overflow-scenario inputs the `u128` overflow check
cannot fire: whenever the two stored values are `u64`-sized, `balance(O,
base, base)` returns `Ok(coins + messages)`; at the scenario's values that is
`Ok(u64::MAX + 1)`. -/
theorem c3_balance_overflow_amended (coins msgs : Nat)
    (hc : coins < 2 ^ 64) (hm : msgs < 2 ^ 64) :
    OffChainDB.balance
        { coinBalances := fun _ _ => some coins
          messageBalances := fun _ => some msgs
          coinsToSpendIndex := [] }
        ownerBytes assetBytes assetBytes = Except.ok (coins + msgs) := by
  simp only [OffChainDB.balance, checkedAdd128, Option.getD_some]
  rw [if_pos trivial, if_pos (show coins + msgs < 2 ^ 128 by omega)]

/-- C3 witness: the amended statement at the scenario's exact values
`u64::MAX` and `1`. -/
theorem c3_balance_overflow_witness :
    OffChainDB.balance
        { coinBalances := fun _ _ => some (2 ^ 64 - 1)
          messageBalances := fun _ => some 1
          coinsToSpendIndex := [] }
        ownerBytes assetBytes assetBytes = Except.ok (2 ^ 64 - 1 + 1) :=
  c3_balance_overflow_amended (2 ^ 64 - 1) 1 (by norm_num) (by norm_num)

/-- C9: `balance(owner, asset, base_asset)` equals the coin balance (0 when
absent, widened to 128 bits) plus, exactly when `asset == base_asset`, the
message balance (0 when absent); the overflow error never fires on a
well-formed (u64-valued) database. -/
theorem c9_balance_spec (db : OffChainDB) (hWF : db.WF)
    (owner assetId baseAssetId : List Nat) :
    db.balance owner assetId baseAssetId =
      Except.ok ((db.coinBalances owner assetId).getD 0 +
        if baseAssetId = assetId then (db.messageBalances owner).getD 0 else 0) := by
  obtain ⟨hcoins, hmsgs⟩ := hWF
  have hc : (db.coinBalances owner assetId).getD 0 < 2 ^ 64 := by
    cases hcase : db.coinBalances owner assetId with
    | none => simp
    | some v => simpa using hcoins owner assetId v hcase
  have hm : (db.messageBalances owner).getD 0 < 2 ^ 64 := by
    cases hcase : db.messageBalances owner with
    | none => simp
    | some v => simpa using hmsgs owner v hcase
  by_cases hbase : baseAssetId = assetId
  · simp only [OffChainDB.balance, checkedAdd128, if_pos hbase]
    rw [if_pos (by omega)]
  · simp only [OffChainDB.balance, if_neg hbase]
    simp

/-- C9 witness: the balance formula at a concrete database holding coin
balance 7 and message balance 5, queried with `asset == base_asset`. -/
theorem c9_balance_spec_witness :
    OffChainDB.balance
        { coinBalances := fun _ _ => some 7
          messageBalances := fun _ => some 5
          coinsToSpendIndex := [] }
        ownerBytes assetBytes assetBytes = Except.ok 12 := by
  have h := c9_balance_spec
    { coinBalances := fun _ _ => some 7
      messageBalances := fun _ => some 5
      coinsToSpendIndex := [] }
    ⟨fun o a v hv => by simp at hv; omega, fun o v hv => by simp at hv; omega⟩
    ownerBytes assetBytes assetBytes
  simpa using h

/-! ## C4: gas-price commit of a normal L2 block -/

theorem drainBuffer_snd (buffer : List DaBlockCosts)
    (acc : List (Nat × Nat) × Option Nat) :
    (drainBuffer buffer acc).2 =
      match buffer.getLast? with
      | some b => some b.l2BlocksEnd
      | none => acc.2 := by
  induction buffer generalizing acc with
  | nil => rfl
  | cons b bs ih =>
    rw [show drainBuffer (b :: bs) acc
        = drainBuffer bs (updateDaRecordData b acc.1, some b.l2BlocksEnd) from rfl]
    rw [ih]
    cases bs with
    | nil => rfl
    | cons b2 bs2 =>
      rw [List.getLast?_cons_cons]
      cases h : (b2 :: bs2).getLast? with
      | none =>
        rw [List.getLast?_eq_none_iff] at h
        exact List.noConfusion h
      | some x => rfl

/-- A DA bundle covering `[1 ..= 5]`. -/
def bundleEnd5 : DaBlockCosts :=
  { bundleId := 1, l2BlocksStart := 1, l2BlocksEnd := 5
    bundleSizeBytes := 10, blobCostWei := 100 }

/-- A DA bundle covering `[1 ..= 3]`. -/
def bundleEnd3 : DaBlockCosts :=
  { bundleId := 2, l2BlocksStart := 1, l2BlocksEnd := 3
    bundleSizeBytes := 10, blobCostWei := 100 }

/-- Gas-price state whose DA buffer holds the bundles in the order
`[end 5, end 3]`. -/
def gpsC4 : GasPriceState :=
  { algoL2Height := 9, unrecordedBlocks := [], recordedHeight := none
    metadataHeight := none, daBlockCostsBuffer := [bundleEnd5, bundleEnd3] }

/-- C4 counterexample: with buffered bundles whose range ends are `[5, 3]`
(in that order), the committed `RecordedHeight` is `3` — the last bundle's
end — not the maximum `5` claimed for every buffer order. -/
theorem c4_recorded_height_counterexample :
    (handleNormalBlock gpsC4 10 60 100 100 100).toOption.map
        (fun s => s.recordedHeight) = some (some 3) ∧
    some (3 : Nat) ≠ some 5 := by
  decide

/-- C4 (amended): after a successful normal-block commit the persisted
metadata records the tick's height and the DA buffer is empty; if the buffer
was non-empty, the persisted `RecordedHeight` equals the `l2_blocks.end()` of
the LAST bundle in buffer order (the maximum only when the ends arrive
nondecreasing); with an empty buffer `RecordedHeight` is untouched. -/
theorem c4_handle_normal_block_amended (s : GasPriceState)
    (height gasUsed cap blockBytes blockFees : Nat) (hcap : cap ≠ 0) :
    ∃ s', handleNormalBlock s height gasUsed cap blockBytes blockFees
        = .ok s' ∧
      s'.metadataHeight = some height ∧
      s'.daBlockCostsBuffer = [] ∧
      (∀ last, s.daBlockCostsBuffer.getLast? = some last →
        s'.recordedHeight = some last.l2BlocksEnd) ∧
      (s.daBlockCostsBuffer = [] → s'.recordedHeight = s.recordedHeight) := by
  simp only [handleNormalBlock, if_neg hcap, updateL2BlockData]
  refine ⟨_, rfl, rfl, rfl, ?_, ?_⟩
  · intro last hlast
    simp only [drainBuffer_snd, hlast]
  · intro hemp
    rw [hemp]
    cases hrec : s.recordedHeight <;> simp [drainBuffer, hrec]

/-- Gas-price state for the spec's DA-lag scenario: one buffered bundle
covering `[1 ..= 5]`. -/
def gpsScenario : GasPriceState :=
  { algoL2Height := 9, unrecordedBlocks := [], recordedHeight := none
    metadataHeight := none, daBlockCostsBuffer := [bundleEnd5] }

/-- C4 witness: the spec's scenario — commit L2 height 10 with one buffered
bundle `[1 ..= 5]` — yields metadata height 10, recorded height 5 and an
empty buffer. -/
theorem c4_handle_normal_block_witness :
    ∃ s', handleNormalBlock gpsScenario 10 60 100 100 100 = .ok s' ∧
      s'.metadataHeight = some 10 ∧
      s'.daBlockCostsBuffer = [] ∧
      s'.recordedHeight = some 5 := by
  obtain ⟨s', h1, h2, h3, h4, h5⟩ :=
    c4_handle_normal_block_amended gpsScenario 10 60 100 100 100 (by decide)
  exact ⟨s', h1, h2, h3, h4 bundleEnd5 rfl⟩

/-! ## C5: DA cost bundles never outrun the L2 tip -/

theorem foldl_sendStep_fst (l : List DaBlockCosts)
    (acc : List DaBlockCosts) (r : Option Nat) :
    (l.foldl sendStep (acc, r)).1 = acc ++ l := by
  induction l generalizing acc r with
  | nil => simp
  | cons c cs ih =>
    simp only [List.foldl, sendStep]
    rw [ih]
    simp

/-- C5: `process_block_costs` sends to subscribers exactly the polled bundles
with `l2_blocks.end() < latest_l2_height`, in batch order; in particular no
bundle with `l2_blocks.end() >= latest_l2_height` is ever published. -/
theorem c5_process_block_costs (batch : List DaBlockCosts)
    (latestL2Height : Nat) (recordedHeight : Option Nat) :
    (processBlockCosts batch latestL2Height recordedHeight).1 =
        batch.filter (fun c => c.l2BlocksEnd < latestL2Height) ∧
    (∀ c, c ∈ (processBlockCosts batch latestL2Height recordedHeight).1 →
      c.l2BlocksEnd < latestL2Height) := by
  have h1 : (processBlockCosts batch latestL2Height recordedHeight).1
      = filterCosts latestL2Height batch := by
    unfold processBlockCosts
    rw [foldl_sendStep_fst]
    simp
  refine ⟨h1, ?_⟩
  intro c hc
  rw [h1] at hc
  unfold filterCosts at hc
  rw [List.mem_filter] at hc
  simpa using hc.2

/-- A bundle lagging behind the tip (`end 3 < 5`). -/
def costsLow : DaBlockCosts :=
  { bundleId := 1, l2BlocksStart := 1, l2BlocksEnd := 3
    bundleSizeBytes := 10, blobCostWei := 100 }

/-- A bundle reaching past the tip (`end 9 >= 5`). -/
def costsHigh : DaBlockCosts :=
  { bundleId := 2, l2BlocksStart := 4, l2BlocksEnd := 9
    bundleSizeBytes := 10, blobCostWei := 100 }

/-- C5 witness: with the tip at 5, only the lagging bundle is published. -/
theorem c5_process_block_costs_witness :
    (processBlockCosts [costsLow, costsHigh] 5 none).1 = [costsLow] ∧
    costsLow.l2BlocksEnd < 5 := by
  obtain ⟨h1, h2⟩ := c5_process_block_costs [costsLow, costsHigh] 5 none
  refine ⟨?_, ?_⟩
  · rw [h1]
    decide
  · refine h2 costsLow ?_
    rw [h1]
    decide

/-! ## C7: `produce_block` error conditions and state preservation -/

/-- C7: `produce_block` errors when the signing key is unset and when the
requested time is earlier than `last_timestamp`; on every error return the
fields `last_height`, `last_timestamp`, `last_block_created` are exactly the
ones it started with, and on a successful commit they advance to the produced
block's height, time, and production start instant. -/
theorem c7_produce_block_errors (s : PoAState) (height blockTime : Nat)
    (rt : RequestType) (env : ProduceEnv) :
    (s.signingKey = none →
      (produceBlock s height blockTime rt env).2 = .err .noConsensusKey) ∧
    (blockTime < s.lastTimestamp →
      ∃ e, (produceBlock s height blockTime rt env).2 = .err e) ∧
    (∀ e, (produceBlock s height blockTime rt env).2 = .err e →
      (produceBlock s height blockTime rt env).1.lastHeight = s.lastHeight ∧
      (produceBlock s height blockTime rt env).1.lastTimestamp
          = s.lastTimestamp ∧
      (produceBlock s height blockTime rt env).1.lastBlockCreated
          = s.lastBlockCreated) ∧
    ((produceBlock s height blockTime rt env).2 = .ok →
      (produceBlock s height blockTime rt env).1.lastHeight = height ∧
      (produceBlock s height blockTime rt env).1.lastTimestamp = blockTime ∧
      (produceBlock s height blockTime rt env).1.lastBlockCreated = env.now) := by
  rcases s with ⟨sk, lh, lt, lbc, trig, td, rtx⟩
  rcases env with ⟨now, pr, cr⟩
  rcases sk with _ | k
  · simp [produceBlock]
  · by_cases hbt : blockTime < lt
    · simp [produceBlock, hbt]
    · have hbt' : ¬ blockTime < lt := by omega
      rcases pr with e | res
      · simp [produceBlock, hbt']
      · rcases cr with e | u
        · rcases trig <;> rcases rt <;> simp [produceBlock, hbt', sealBlock]
        · rcases trig <;> rcases rt <;> simp [produceBlock, hbt', sealBlock]

/-- A state with no signing key. -/
def sNoKey : PoAState :=
  { signingKey := none, lastHeight := 1, lastTimestamp := 10
    lastBlockCreated := 0, trigger := .instant, timerDeadline := none
    removedTxs := [] }

/-- A keyed state whose `last_timestamp` is 10. -/
def sLate : PoAState :=
  { signingKey := some 1, lastHeight := 1, lastTimestamp := 10
    lastBlockCreated := 0, trigger := .instant, timerDeadline := none
    removedTxs := [] }

/-- An environment where production and commit both succeed. -/
def envOk : ProduceEnv :=
  { now := 50, produceResult := .ok { blockId := 42, skippedTransactions := [] }
    commitResult := .ok () }

/-- C7 witness: a missing key errors; `block_time = 3 < last_timestamp = 10`
errors and leaves `last_timestamp` untouched. -/
theorem c7_produce_block_errors_witness :
    (produceBlock sNoKey 5 20 .manual envOk).2 = .err .noConsensusKey ∧
    (∃ e, (produceBlock sLate 5 3 .manual envOk).2 = .err e) ∧
    (produceBlock sLate 5 3 .manual envOk).1.lastTimestamp
        = sLate.lastTimestamp := by
  refine ⟨(c7_produce_block_errors sNoKey 5 20 .manual envOk).1 rfl, ?_, ?_⟩
  · exact (c7_produce_block_errors sLate 5 3 .manual envOk).2.1 (by decide)
  · obtain ⟨e, he⟩ :=
      (c7_produce_block_errors sLate 5 3 .manual envOk).2.1 (by decide)
    exact ((c7_produce_block_errors sLate 5 3 .manual envOk).2.2.1 e he).2.1

/-! ## C8: timer re-arm matrix after a successful production -/

/-- C8: after a successful `produce_block`, the deadline clock is untouched
under `Never` and `Instant`; under `Interval{block_time}` the deadline is set
to the production start instant plus `block_time`, with policy `Min` when the
production was trigger-driven and `Overwrite` when it was manual. -/
theorem c8_timer_matrix (s : PoAState) (height blockTime : Nat)
    (rt : RequestType) (env : ProduceEnv)
    (hok : (produceBlock s height blockTime rt env).2 = .ok) :
    ((s.trigger = .never ∨ s.trigger = .instant) →
      (produceBlock s height blockTime rt env).1.timerDeadline
        = s.timerDeadline) ∧
    (∀ bt, s.trigger = .interval bt → rt = .trigger →
      (produceBlock s height blockTime rt env).1.timerDeadline
        = setDeadline s.timerDeadline (env.now + bt) .min) ∧
    (∀ bt, s.trigger = .interval bt → rt = .manual →
      (produceBlock s height blockTime rt env).1.timerDeadline
        = setDeadline s.timerDeadline (env.now + bt) .overwrite) := by
  rcases s with ⟨sk, lh, lt, lbc, trig, td, rtx⟩
  rcases env with ⟨now, pr, cr⟩
  rcases sk with _ | k
  · simp [produceBlock] at hok
  · by_cases hbt : blockTime < lt
    · simp [produceBlock, hbt] at hok
    · have hbt' : ¬ blockTime < lt := by omega
      rcases pr with e | res
      · simp [produceBlock, hbt'] at hok
      · rcases cr with e | u
        · simp [produceBlock, hbt', sealBlock] at hok
        · rcases trig <;> rcases rt <;>
            simp_all [produceBlock, sealBlock, if_neg hbt']

/-- A keyed state in `Interval{7}` mode with an armed deadline at 100. -/
def sInterval : PoAState :=
  { signingKey := some 1, lastHeight := 1, lastTimestamp := 10
    lastBlockCreated := 0, trigger := .interval 7, timerDeadline := some 100
    removedTxs := [] }

/-- C8 witness: a successful trigger-driven production in `Interval{7}` mode
re-arms the deadline with policy `Min`: `min 100 (50 + 7) = 57`. -/
theorem c8_timer_matrix_witness :
    (produceBlock sInterval 5 20 .trigger envOk).1.timerDeadline = some 57 := by
  have h := (c8_timer_matrix sInterval 5 20 .trigger envOk (by decide)).2.1
    7 rfl rfl
  rw [h]
  decide

end FuelCore
